import Mathlib

/-!
Verification development for the video-downloader repository.

The Python source is shallowly embedded: Python strings are `List Char`,
the filesystem state visible to a function is the list of existing path
names, provider calls (`yt_dlp` extraction / download) are oracles of type
`Bool → Except (List Char) Unit` (the `Bool` argument records whether the
"Videasy" fallback headers are attached to the call), and the option
dictionaries built for the provider are Lean structures whose fields are
the dictionary keys.  All definitions are computable, so concrete runs can
be settled by `decide`.
-/

set_option maxHeartbeats 1000000

namespace VideoDownloader

/-! ## utils.py — filename helpers -/

/-- The character class of `_INVALID_FN_RE = re.compile(r'[<>:"/\\|?*\x00]')`
in utils.py: characters replaced by an underscore. -/
def invalidFnChar (c : Char) : Bool :=
  c = '<' || c = '>' || c = ':' || c = '"' || c = '/' || c = '\\' ||
  c = '|' || c = '?' || c = '*' || c.toNat = 0

/-- Python's whitespace class: the characters matched by `re`'s `\s` on `str`
and stripped by `str.strip()` (ASCII whitespace, the C1 separators, and the
Unicode space code points). -/
def pySpace (c : Char) : Bool :=
  [9, 10, 11, 12, 13, 28, 29, 30, 31, 32, 133, 160, 5760,
   8192, 8193, 8194, 8195, 8196, 8197, 8198, 8199, 8200, 8201, 8202,
   8232, 8233, 8239, 8287, 12288].contains c.toNat

/-- One character of `_INVALID_FN_RE.sub("_", name)`. -/
def replChar (c : Char) : Char :=
  if invalidFnChar c then '_' else c

/-- `re.sub(r"\s+", " ", name)`: every maximal run of whitespace becomes one
space.  The flag records whether we are inside a whitespace run whose single
replacement space has already been emitted. -/
def collapseWS : Bool → List Char → List Char
  | _, [] => []
  | inRun, c :: rest =>
    if pySpace c then
      if inRun then collapseWS true rest
      else ' ' :: collapseWS true rest
    else c :: collapseWS false rest

/-- `str.lstrip()` (whitespace from the left). -/
def lstripWS (l : List Char) : List Char := l.dropWhile pySpace

/-- `str.rstrip()` (whitespace from the right). -/
def rstripWS (l : List Char) : List Char := (l.reverse.dropWhile pySpace).reverse

/-- `str.strip()`. -/
def stripWS (l : List Char) : List Char := lstripWS (rstripWS l)

/-- The non-empty path of utils.py `sanitize_filename`: invalid characters
are replaced with `_`, whitespace runs are collapsed to one space, the ends
are stripped, and a result longer than 240 characters is cut to 240 and
right-stripped. -/
def sanitizeCore (name : List Char) : List Char :=
  let collapsed := stripWS (collapseWS false (name.map replChar))
  if 240 < collapsed.length then rstripWS (collapsed.take 240) else collapsed

/-- utils.py `sanitize_filename(name, max_length=240)` (all call sites use
the default `max_length`): empty input returns `"download"`, anything else
goes through `sanitizeCore`. -/
def sanitize_filename (name : List Char) : List Char :=
  if name = [] then "download".toList else sanitizeCore name

/-- Decimal numeral of `n` (Python's `str(i)` for the counter in
`unique_filename`), written with explicit fuel so that it reduces by
evaluation; `decimalAux fuel n` is correct whenever `n ≤ fuel`. -/
def decimalAux : Nat → Nat → List Char
  | 0, n => [Nat.digitChar n]
  | fuel + 1, n =>
    if n < 10 then [Nat.digitChar n]
    else decimalAux fuel (n / 10) ++ [Nat.digitChar (n % 10)]

def decimal (n : Nat) : List Char := decimalAux n n

/-- `ext.lstrip(".")` as applied in `unique_filename` (an `ext` that is empty
before or after the strip leads to the no-extension candidate shape). -/
def ext_clean (ext : List Char) : List Char := ext.dropWhile (· == '.')

/-- `f"{base}.{ext}" if ext else base`. -/
def with_ext (base e : List Char) : List Char :=
  if e = [] then base else base ++ '.' :: e

/-- The `j`-th candidate file name probed by `unique_filename`:
`base.ext` for `j = 0`, and `base (j).ext` for `j ≥ 1`. -/
def candidate (b e : List Char) (j : Nat) : List Char :=
  if j = 0 then with_ext b e
  else with_ext (b ++ (' ' :: '(' :: decimal j) ++ [')']) e

/-- The `while os.path.exists(full)` loop of `unique_filename`, testing
candidates `j, j+1, …` against the folder contents `files`; the fuel bounds
the number of membership tests (`unique_filename` supplies enough fuel for
the loop to terminate at the first free candidate, see the lemmas below). -/
def uniqueGo (files : List (List Char)) (b e : List Char) : Nat → Nat → List Char
  | 0, j => candidate b e j
  | fuel + 1, j =>
    if candidate b e j ∈ files then uniqueGo files b e fuel (j + 1)
    else candidate b e j

/-- utils.py `unique_filename(folder, base_name, ext)`.  The folder is
modelled by the list `files` of file names existing in it
(`os.path.exists(os.path.join(folder, name))  ↔  name ∈ files`); the
`os.makedirs` / fallback-to-cwd handling only chooses which folder is used
and is outside the model.  Note the source sanitizes `base_name` before
building candidates. -/
def unique_filename (files : List (List Char)) (base_name ext : List Char) : List Char :=
  uniqueGo files (sanitize_filename base_name) (ext_clean ext) files.length 0

/-! ## workers.py — option builder -/

/-- One entry of the `postprocessors` list (`FFmpegExtractAudio` in the mp3
branch). -/
structure Postprocessor where
  key : String
  preferredcodec : String
  preferredquality : Option String
deriving DecidableEq

/-- The yt-dlp option dictionary built by workers.py `build_ydl_opts`.
Fields are the dictionary keys; `format`, `merge_output_format` and
`postprocessor_args` are `Option` because the base dictionary does not set
them.  The `logger`, `retry_sleep_functions` (two constant lambdas) and
`remote_components` entries are runtime objects not consulted by any claim
and are not modelled. -/
structure YdlOpts where
  abort_on_error : Bool
  concurrent_fragment_downloads : Int
  http_chunk_size : Int
  retries : Nat
  fragment_retries : Nat
  socket_timeout : Nat
  file_access_retries : Nat
  downloader : String
  hls_use_mpegts : Bool
  continuedl : Bool
  noplaylist : Bool
  cachedir : Bool
  format : Option String
  merge_output_format : Option String
  postprocessor_args : Option (List String)
  postprocessors : List Postprocessor
deriving DecidableEq

/-- The `net_config` mapping read by the builders.  The config file stores
decimal strings and the builders apply `int(...)`; the model carries the
parsed integer values directly. -/
structure NetConfig where
  concurrent_fragment_downloads : Option Int
  http_chunk_size : Option Int

/-- The format-selector expression of `build_ydl_opts` for the
video-with-audio family (`fmt` in mp4-with-audio / avi / mkv), written
inline in the source: `"best"` and falsy values (`None`, `""`) give the
unconstrained selector, anything else the height-constrained one. -/
def code_video_selector (video_quality : Option String) : String :=
  match video_quality with
  | some q =>
    if q = "best" then "bestvideo+bestaudio/best"
    else if q ≠ "" then
      "bestvideo[height<=" ++ q ++ "]+bestaudio/best[height<=" ++ q ++ "]"
    else "bestvideo+bestaudio/best"
  | none => "bestvideo+bestaudio/best"

/-- The format-selector expression of `build_ydl_opts` for
`"mp4 (without Audio)"`, written inline in the source. -/
def code_videoonly_selector (video_quality : Option String) : String :=
  match video_quality with
  | some q =>
    if q = "best" then "bestvideo"
    else if q ≠ "" then "bestvideo[height<=" ++ q ++ "]"
    else "bestvideo"
  | none => "bestvideo"

/-- workers.py `build_ydl_opts(fmt, video_quality, audio_bitrate, net_config)`.
`video_quality` and `audio_bitrate` may be `None` (`Option`); Python
truthiness of a string (`if video_quality:`) is `≠ ""` on `some`, false on
`none`.  For `fmt ∈ {"avi", "mkv"}` the source computes
`fmt.split()[0].lower()`, which equals `fmt` for those two literals. -/
def build_ydl_opts (fmt : String) (video_quality : Option String)
    (audio_bitrate : Option String) (net_config : NetConfig) : YdlOpts :=
  let base : YdlOpts :=
    { abort_on_error := false
      concurrent_fragment_downloads := net_config.concurrent_fragment_downloads.getD 3
      http_chunk_size := net_config.http_chunk_size.getD 1048576
      retries := 100
      fragment_retries := 100
      socket_timeout := 10
      file_access_retries := 50
      downloader := "ffmpeg"
      hls_use_mpegts := true
      continuedl := true
      noplaylist := true
      cachedir := false
      format := none
      merge_output_format := none
      postprocessor_args := none
      postprocessors := [] }
  if fmt = "mp4 (with Audio)" ∨ fmt = "avi" ∨ fmt = "mkv" then
    if fmt = "mp4 (with Audio)" then
      { base with format := some (code_video_selector video_quality),
                  merge_output_format := some "mp4",
                  postprocessor_args := some ["-c", "copy"] }
    else
      { base with format := some (code_video_selector video_quality),
                  merge_output_format := some fmt }
  else if fmt = "mp4 (without Audio)" then
    { base with format := some (code_videoonly_selector video_quality),
                merge_output_format := some "mp4",
                postprocessor_args := some ["-c", "copy"] }
  else if fmt = "mp3" then
    { base with format := some "bestaudio",
                postprocessors :=
                  [{ key := "FFmpegExtractAudio", preferredcodec := "mp3",
                     preferredquality := audio_bitrate }] }
  else
    { base with format := some "bestvideo+bestaudio/best",
                merge_output_format := some "mp4",
                postprocessor_args := some ["-c", "copy"] }

/-- The fields of the option dictionary built inline at the top of
downloader.py `DownloadWorker.run` that the claims consult (this legacy
module duplicates the builder with different defaults). -/
structure DownloaderRunOpts where
  abort_on_error : Bool
  concurrent_fragment_downloads : Int
  http_chunk_size : Int
  noplaylist : Bool
deriving DecidableEq

/-- downloader.py `DownloadWorker.run`, base `ydl_opts` dictionary (lines
254–261): note the defaults `"5"` and `"2097152"` here, unlike
`build_ydl_opts`. -/
def downloader_run_base_opts (net_config : NetConfig) : DownloaderRunOpts :=
  { abort_on_error := true
    concurrent_fragment_downloads := net_config.concurrent_fragment_downloads.getD 5
    http_chunk_size := net_config.http_chunk_size.getD 2097152
    noplaylist := true }

/-! ## workers.py — retry, clean-up and progress-hook control flow

Provider calls are oracles `Bool → Except (List Char) Unit`: the argument
is whether the Videasy fallback headers (`get_videasy_headers()`) are
attached to the option dictionary for that call, the result is success or
the exception message `str(e)`.  Each run returns, besides its outcome, the
trace of header flags of the provider calls it made, in order. -/

/-- `err_str = str(e).lower(); "403" in err_str or "forbidden" in err_str`
(the authorization-denied signal used by every retry site). -/
def authSignal (e : List Char) : Bool :=
  let s := e.map Char.toLower
  decide ("403".toList <:+: s) || decide ("forbidden".toList <:+: s)

/-- Outcome of `MetadataWorker.run`: either the metadata dict is emitted on
`metadata_signal` or a message is emitted on `error_signal`. -/
inductive ProbeOutcome where
  | metadataEmitted
  | errorEvent (msg : List Char)
deriving DecidableEq

/-- workers.py `MetadataWorker.run`, extraction/error-handling skeleton:
`_extract(ydl_opts)`; on an exception whose lowered message contains the
authorization signal, one retry with `http_headers = get_videasy_headers()`;
a second failure emits the second message, a non-authorization failure
emits the first.  (The metadata/thumbnail post-processing after a successful
extraction always ends in `metadata_signal`.) -/
def MetadataWorker.run (ext : Bool → Except (List Char) Unit) :
    List Bool × ProbeOutcome :=
  match ext false with
  | .ok _ => ([false], .metadataEmitted)
  | .error e =>
    if authSignal e then
      match ext true with
      | .ok _ => ([false, true], .metadataEmitted)
      | .error e2 => ([false, true], .errorEvent e2)
    else ([false], .errorEvent e)

/-- Outcome of the download phase of workers.py `DownloadWorker.run`. -/
inductive TransferOutcome where
  | finished
  | errorEvent (msg : List Char)
deriving DecidableEq

/-- One iteration of the clean-up loop body:
`if os.path.exists(fname): try: os.remove(fname) except Exception: pass`.
`removeOk` is the oracle saying whether `os.remove` succeeds on a path; a
failing removal leaves the filesystem unchanged (the exception is
swallowed). -/
def removeStep (removeOk : List Char → Bool) (acc : List (List Char))
    (f : List Char) : List (List Char) :=
  if f ∈ acc then (if removeOk f then acc.filter (fun g => g != f) else acc)
  else acc

/-- The partial-file clean-up loop shared by workers.py `DownloadWorker.run`
(lines 646–653) and gui.py `MainWindow.show_context_menu` (lines 652–658):
for `fname in [out, out + ".part"]`, if the file exists try `os.remove`,
swallowing any exception.  `out = none` models
`self.current_outtmpl is None`, in which case nothing is touched. -/
def cleanup_partials (removeOk : List Char → Bool) (fs : List (List Char))
    (out : Option (List Char)) : List (List Char) :=
  match out with
  | none => fs
  | some o => [o, o ++ ".part".toList].foldl (removeStep removeOk) fs

/-- workers.py `DownloadWorker.run`, final download phase (lines 626–654):
`used` is `self._used_videasy_headers` (so the first `ydl.download` call
already carries the fallback headers when `used = true`); on an exception,
a single retry with fallback headers happens only when `used` is false and
the message carries the authorization signal; every error exit runs the
partial-file clean-up and emits the last message.  A cooperative cancel
surfaces here as the provider call failing with message `"Cancelled"`
raised by the progress hook.  Returns (call trace, outcome, filesystem
after clean-up). -/
def DownloadWorker.download_phase (used : Bool)
    (dl : Bool → Except (List Char) Unit) (current_outtmpl : Option (List Char))
    (fs : List (List Char)) (removeOk : List Char → Bool) :
    List Bool × TransferOutcome × List (List Char) :=
  match dl used with
  | .ok _ => ([used], .finished, fs)
  | .error e =>
    if !used && authSignal e then
      match dl true with
      | .ok _ => ([used, true], .finished, fs)
      | .error e2 =>
        ([used, true], .errorEvent e2, cleanup_partials removeOk fs current_outtmpl)
    else ([used], .errorEvent e, cleanup_partials removeOk fs current_outtmpl)

/-- Exit of one invocation of workers.py `DownloadWorker.progress_hook`
(flag-checking part): the entry `if self._cancelled: raise`, then the wait
loop `while self._paused: time.sleep(0.2)`, then the normal progress
emission. -/
inductive HookExit where
  | raisedCancelled
  | proceeded
  | stillPaused
deriving DecidableEq

/-- The `while self._paused: time.sleep(0.2)` loop.  `flags t` is the pair
(`self._paused`, `self._cancelled`) as observed at the `t`-th flag read of
this invocation (the flags are written concurrently by `pause` / `resume` /
`cancel`); the loop reads only the paused flag.  The fuel bounds how many
loop iterations we observe; `stillPaused` means the loop was still spinning
after `fuel` checks. -/
def DownloadWorker.pause_wait (flags : Nat → Bool × Bool) :
    Nat → Nat → HookExit
  | 0, t => if (flags t).fst then .stillPaused else .proceeded
  | fuel + 1, t =>
    if (flags t).fst then DownloadWorker.pause_wait flags fuel (t + 1)
    else .proceeded

/-- workers.py `DownloadWorker.progress_hook`, cooperative-flag logic
(lines 403–407): the cancelled flag is read once on entry (check 0), after
which only the paused flag is read by the wait loop (checks 1, 2, …). -/
def DownloadWorker.progress_hook (flags : Nat → Bool × Bool) (fuel : Nat) :
    HookExit :=
  if (flags 0).snd then .raisedCancelled
  else DownloadWorker.pause_wait flags fuel 1

/-- Flag schedule for "the task is paused, and a cancel is issued while it
is paused, with no resume": paused at every check, cancelled from check 1
onward (the invocation passed its entry check before the cancel landed). -/
def pausedThenCancelledFlags : Nat → Bool × Bool :=
  fun t => (true, decide (1 ≤ t))

/-- Flag schedule for "cancel at check 1, resume at check 5": paused at
checks 0–4, unpaused from check 5, cancelled from check 1 onward. -/
def cancelThenResumeFlags : Nat → Bool × Bool :=
  fun t => (decide (t < 5), decide (1 ≤ t))

/-! ## Spec-side definitions (for the refinement claims) -/

/-- The output kinds of the spec's data model (§3); `UnknownKind` stands for
any format string outside the five recognized ones. -/
inductive OutputKind where
  | VideoWithAudio
  | VideoOnly
  | AudioOnly
  | ContainerAVI
  | ContainerMKV
  | UnknownKind
deriving DecidableEq

/-- The format strings used by the UI/CLI, mapped to the spec's kinds. -/
def kindOf (fmt : String) : OutputKind :=
  if fmt = "mp4 (with Audio)" then .VideoWithAudio
  else if fmt = "mp4 (without Audio)" then .VideoOnly
  else if fmt = "mp3" then .AudioOnly
  else if fmt = "avi" then .ContainerAVI
  else if fmt = "mkv" then .ContainerMKV
  else .UnknownKind

/-- The spec's ResolvedOptionBundle fields settled by the mapping table. -/
structure ResolvedBundle where
  formatSelector : String
  mergeContainer : Option String
  postProcessArgs : Option (List String)
  postProcessors : List Postprocessor
deriving DecidableEq

/-- Modelled from the spec: the video format selector of table §4.1 — a
height-constrained two-stream selector, unconstrained when the ceiling is
"best", empty or absent. -/
def specVideoSelector (ceiling : Option String) : String :=
  match ceiling with
  | some h =>
    if h ≠ "best" ∧ h ≠ "" then
      "bestvideo[height<=" ++ h ++ "]+bestaudio/best[height<=" ++ h ++ "]"
    else "bestvideo+bestaudio/best"
  | none => "bestvideo+bestaudio/best"

/-- Modelled from the spec: the video-only selector of table §4.1. -/
def specVideoOnlySelector (ceiling : Option String) : String :=
  match ceiling with
  | some h =>
    if h ≠ "best" ∧ h ≠ "" then "bestvideo[height<=" ++ h ++ "]"
    else "bestvideo"
  | none => "bestvideo"

/-- Modelled from the spec: the mapping table of §4.1, amended at two points
where the source deviates from the spec's wording: the ContainerAVI /
ContainerMKV rows carry no post-process directive (the source sets only the
merge container for them), and the unknown-kind fallback row is the
VideoWithAudio row with the unconstrained selector (the source ignores the
ceiling there). -/
def specTable (k : OutputKind) (ceiling bitrate : Option String) : ResolvedBundle :=
  match k with
  | .VideoWithAudio =>
    ⟨specVideoSelector ceiling, some "mp4", some ["-c", "copy"], []⟩
  | .ContainerAVI => ⟨specVideoSelector ceiling, some "avi", none, []⟩
  | .ContainerMKV => ⟨specVideoSelector ceiling, some "mkv", none, []⟩
  | .VideoOnly =>
    ⟨specVideoOnlySelector ceiling, some "mp4", some ["-c", "copy"], []⟩
  | .AudioOnly =>
    ⟨"bestaudio", none, none,
      [{ key := "FFmpegExtractAudio", preferredcodec := "mp3",
         preferredquality := bitrate }]⟩
  | .UnknownKind =>
    ⟨"bestvideo+bestaudio/best", some "mp4", some ["-c", "copy"], []⟩

/-- The relation "not two whitespace characters in a row". -/
def noAdjSpace (a b : Char) : Prop := ¬(pySpace a = true ∧ pySpace b = true)

instance instDecidableNoAdjSpace (a b : Char) : Decidable (noAdjSpace a b) :=
  inferInstanceAs (Decidable ¬(pySpace a = true ∧ pySpace b = true))

/-- Value of a digit list (inverse of `decimal`). -/
def digitsVal (l : List Char) : Nat :=
  l.foldl (fun a c => 10 * a + (c.toNat - 48)) 0

/-- Concrete provider oracle: the bare call fails with an authorization
denial, the call with fallback headers succeeds. -/
def authThenOkOracle : Bool → Except (List Char) Unit :=
  fun withHeaders =>
    if withHeaders then .ok () else .error "HTTP Error 403: Forbidden".toList

/-- Concrete provider oracle: every call fails with an authorization
denial. -/
def alwaysAuthFailOracle : Bool → Except (List Char) Unit :=
  fun _ => .error "HTTP Error 403: Forbidden".toList

/-- Concrete provider oracle: every call fails with a non-authorization
message. -/
def alwaysBoomOracle : Bool → Except (List Char) Unit :=
  fun _ => .error "network unreachable".toList

/-! ## Helper lemmas: sanitize_filename -/

/-- Replacement output never carries an invalid character. -/
lemma invalidFnChar_replChar (c : Char) : invalidFnChar (replChar c) = false := by
  unfold replChar
  split
  · rfl
  · next h => exact Bool.not_eq_true _ ▸ (by simpa using h)

/-- An invalid filename character is never whitespace. -/
lemma pySpace_of_invalid (c : Char) (h : invalidFnChar c = true) : pySpace c = false := by
  unfold invalidFnChar at h
  simp only [Bool.or_eq_true, decide_eq_true_eq, or_assoc] at h
  rcases h with h | h | h | h | h | h | h | h | h | h
  all_goals first
    | (subst h; decide)
    | (unfold pySpace; rw [h]; decide)

/-- The underscore is not whitespace, so replacement preserves
non-whitespace-ness and maps whitespace to itself. -/
lemma replChar_space (c : Char) : pySpace (replChar c) = pySpace c := by
  unfold replChar
  split
  · next h => rw [pySpace_of_invalid c h]; decide
  · rfl

/-- If no character of `l` is invalid, the replacement pass is the identity. -/
lemma map_replChar_eq_self (l : List Char) (h : ∀ c ∈ l, invalidFnChar c = false) :
    l.map replChar = l := by
  induction l with
  | nil => rfl
  | cons c rest ih =>
    have hc : invalidFnChar c = false := h c (List.mem_cons_self c rest)
    simp only [List.map_cons, List.cons.injEq]
    exact ⟨by unfold replChar; rw [hc]; rfl,
      ih fun x hx => h x (List.mem_cons_of_mem c hx)⟩

/-- Characters of the collapse output: the inserted blank, or a
non-whitespace character of the input. -/
lemma mem_collapseWS (inRun : Bool) (l : List Char) (c : Char)
    (h : c ∈ collapseWS inRun l) : c = ' ' ∨ (c ∈ l ∧ pySpace c = false) := by
  induction l generalizing inRun with
  | nil => simp [collapseWS] at h
  | cons a rest ih =>
    unfold collapseWS at h
    by_cases ha : pySpace a = true
    · rw [if_pos ha] at h
      by_cases hr : inRun = true
      · rw [if_pos hr] at h
        rcases ih true h with h' | h'
        · exact Or.inl h'
        · exact Or.inr ⟨List.mem_cons_of_mem a h'.1, h'.2⟩
      · rw [if_neg hr] at h
        rcases List.mem_cons.mp h with h' | h'
        · exact Or.inl h'
        · rcases ih true h' with h'' | h''
          · exact Or.inl h''
          · exact Or.inr ⟨List.mem_cons_of_mem a h''.1, h''.2⟩
    · rw [if_neg ha] at h
      rcases List.mem_cons.mp h with h' | h'
      · subst h'
        exact Or.inr ⟨List.mem_cons_self c rest, Bool.not_eq_true _ ▸ (by simpa using ha)⟩
      · rcases ih false h' with h'' | h''
        · exact Or.inl h''
        · exact Or.inr ⟨List.mem_cons_of_mem a h''.1, h''.2⟩

/-- While the flag says "inside a run", the collapse output starts with a
non-whitespace character. -/
lemma collapseWS_true_head (l : List Char) (h : Char)
    (hh : (collapseWS true l).head? = some h) : pySpace h = false := by
  induction l with
  | nil => simp [collapseWS] at hh
  | cons a rest ih =>
    unfold collapseWS at hh
    by_cases ha : pySpace a = true
    · rw [if_pos ha, if_pos rfl] at hh
      exact ih hh
    · rw [if_neg ha] at hh
      simp only [List.head?_cons, Option.some.injEq] at hh
      subst hh
      exact Bool.not_eq_true _ ▸ (by simpa using ha)

/-- The collapse output never has two adjacent whitespace characters. -/
lemma collapseWS_chain (l : List Char) (inRun : Bool) :
    (collapseWS inRun l).Chain' noAdjSpace := by
  induction l generalizing inRun with
  | nil => simp [collapseWS]
  | cons a rest ih =>
    unfold collapseWS
    by_cases ha : pySpace a = true
    · rw [if_pos ha]
      by_cases hr : inRun = true
      · rw [if_pos hr]; exact ih true
      · rw [if_neg hr]
        refine List.chain'_cons'.mpr ⟨?_, ih true⟩
        intro y hy
        exact fun hc => by
          rw [collapseWS_true_head rest y hy] at hc
          exact Bool.false_ne_true hc.2
    · rw [if_neg ha]
      refine List.chain'_cons'.mpr ⟨?_, ih false⟩
      intro y _
      exact fun hc => ha hc.1

/-- Head of a `dropWhile` result fails the predicate. -/
lemma head_dropWhile_false (p : Char → Bool) (l : List Char) (h : Char)
    (hh : (l.dropWhile p).head? = some h) : p h = false := by
  induction l with
  | nil => simp [List.dropWhile] at hh
  | cons a rest ih =>
    rw [List.dropWhile_cons] at hh
    by_cases ha : p a = true
    · rw [if_pos ha] at hh; exact ih hh
    · rw [if_neg ha] at hh
      simp only [List.head?_cons, Option.some.injEq] at hh
      subst hh
      exact Bool.not_eq_true _ ▸ (by simpa using ha)

/-- `dropWhile` either empties the list or preserves its last element. -/
lemma dropWhile_getLast? (p : Char → Bool) (l : List Char) :
    l.dropWhile p = [] ∨ (l.dropWhile p).getLast? = l.getLast? := by
  induction l with
  | nil => exact Or.inl rfl
  | cons a rest ih =>
    rw [List.dropWhile_cons]
    by_cases ha : p a = true
    · rw [if_pos ha]
      cases rest with
      | nil => exact Or.inl rfl
      | cons b rs =>
        rcases ih with h | h
        · exact Or.inl h
        · right
          rw [h, List.getLast?_cons_cons]
    · rw [if_neg ha]
      exact Or.inr rfl

/-- `Chain'` restricts to a prefix. -/
lemma chain_pfx {R : Char → Char → Prop} {l l₁ : List Char} (h : l₁ <+: l)
    (hc : l.Chain' R) : l₁.Chain' R :=
  List.Chain'.prefix hc h

/-- `Chain'` restricts to a suffix. -/
lemma chain_sfx {R : Char → Char → Prop} {l l₁ : List Char} (h : l₁ <:+ l)
    (hc : l.Chain' R) : l₁.Chain' R :=
  List.Chain'.suffix hc h

/-- `take` yields a prefix. -/
lemma take_pfx (n : Nat) (l : List Char) : l.take n <+: l :=
  List.take_prefix n l

/-- `rstripWS` output is a prefix of the input. -/
lemma rstripWS_pfx (l : List Char) : rstripWS l <+: l := by
  unfold rstripWS
  have h := List.dropWhile_suffix (l := l.reverse) pySpace
  rcases h with ⟨t, ht⟩
  refine ⟨t.reverse, ?_⟩
  have := congrArg List.reverse ht
  simpa [List.reverse_append] using this

/-- Last element of `rstripWS` is not whitespace. -/
lemma rstripWS_getLast (l : List Char) (h : Char)
    (hh : (rstripWS l).getLast? = some h) : pySpace h = false := by
  unfold rstripWS at hh
  rw [List.getLast?_reverse] at hh
  exact head_dropWhile_false pySpace l.reverse h hh

/-- Head of `lstripWS` is not whitespace. -/
lemma lstripWS_head (l : List Char) (h : Char)
    (hh : (lstripWS l).head? = some h) : pySpace h = false :=
  head_dropWhile_false pySpace l h hh

/-- `stripWS` keeps the last-element property of `rstripWS`. -/
lemma stripWS_getLast (l : List Char) (h : Char)
    (hh : (stripWS l).getLast? = some h) : pySpace h = false := by
  unfold stripWS lstripWS at hh
  rcases dropWhile_getLast? pySpace (rstripWS l) with he | he
  · rw [he] at hh; simp at hh
  · rw [he] at hh
    exact rstripWS_getLast l h hh

/-- Membership in `rstripWS` implies membership in the input. -/
lemma mem_rstripWS (l : List Char) (c : Char) (h : c ∈ rstripWS l) : c ∈ l :=
  (rstripWS_pfx l).subset h

/-- Membership in `stripWS` implies membership in the input. -/
lemma mem_stripWS (l : List Char) (c : Char) (h : c ∈ stripWS l) : c ∈ l := by
  unfold stripWS lstripWS at h
  exact mem_rstripWS l c ((List.dropWhile_suffix pySpace).subset h)

/-- A nonempty prefix starts with the head of the larger list. -/
lemma head?_of_pfx (l₁ l₂ : List Char) (h : l₁ <+: l₂) (c : Char)
    (hc : l₁.head? = some c) : l₂.head? = some c := by
  rcases h with ⟨t, ht⟩
  subst ht
  cases l₁ with
  | nil => simp at hc
  | cons a r => simpa using hc

/-- Length after `rstripWS` does not grow. -/
lemma rstripWS_length_le (l : List Char) : (rstripWS l).length ≤ l.length := by
  unfold rstripWS
  rw [List.length_reverse]
  calc (l.reverse.dropWhile pySpace).length ≤ l.reverse.length :=
        (List.dropWhile_suffix pySpace).length_le
    _ = l.length := List.length_reverse l

/-- Unfolding equation: collapse at a whitespace character, run not open. -/
lemma collapseWS_cons_space_false (a : Char) (rest : List Char)
    (h : pySpace a = true) :
    collapseWS false (a :: rest) = ' ' :: collapseWS true rest := by
  simp [collapseWS, h]

/-- Unfolding equation: collapse at a whitespace character, run open. -/
lemma collapseWS_cons_space_true (a : Char) (rest : List Char)
    (h : pySpace a = true) :
    collapseWS true (a :: rest) = collapseWS true rest := by
  simp [collapseWS, h]

/-- Unfolding equation: collapse at a non-whitespace character. -/
lemma collapseWS_cons_nospace (inRun : Bool) (a : Char) (rest : List Char)
    (h : pySpace a = false) :
    collapseWS inRun (a :: rest) = a :: collapseWS false rest := by
  simp [collapseWS, h]

/-- On an already collapsed list (whitespace only as isolated blanks), the
collapse pass is the identity; with the run flag open this additionally
needs a non-whitespace head. -/
lemma collapseWS_eq_self (l : List Char)
    (hb : ∀ c ∈ l, pySpace c = true → c = ' ')
    (hch : l.Chain' noAdjSpace) :
    collapseWS false l = l ∧
    ((∀ c, l.head? = some c → pySpace c = false) → collapseWS true l = l) := by
  induction l with
  | nil => exact ⟨rfl, fun _ => rfl⟩
  | cons a rest ih =>
    have hb' : ∀ c ∈ rest, pySpace c = true → c = ' ' :=
      fun c hc => hb c (List.mem_cons_of_mem a hc)
    obtain ⟨hR, hch'⟩ := List.chain'_cons'.mp hch
    obtain ⟨ih0, ih1⟩ := ih hb' hch'
    by_cases ha : pySpace a = true
    · have haa : a = ' ' := hb a (List.mem_cons_self a rest) ha
      have hresthead : ∀ c, rest.head? = some c → pySpace c = false := by
        intro c hc
        have hr := hR c (by rw [hc]; rfl)
        by_contra hcon
        exact hr ⟨ha, by simpa using hcon⟩
      refine ⟨?_, ?_⟩
      · rw [collapseWS_cons_space_false a rest ha, ih1 hresthead, haa]
      · intro hhead
        have := hhead a rfl
        rw [ha] at this
        exact absurd this (by simp)
    · have ha' : pySpace a = false := by simpa using ha
      refine ⟨?_, fun _ => ?_⟩
      · rw [collapseWS_cons_nospace false a rest ha', ih0]
      · rw [collapseWS_cons_nospace true a rest ha', ih0]

/-- `dropWhile` is the identity when the head fails the predicate. -/
lemma dropWhile_eq_self_of_head (p : Char → Bool) (l : List Char)
    (h : ∀ c, l.head? = some c → p c = false) : l.dropWhile p = l := by
  cases l with
  | nil => rfl
  | cons a rest =>
    rw [List.dropWhile_cons, if_neg (by simp [h a rfl])]

/-- `lstripWS` is the identity when the head is not whitespace. -/
lemma lstripWS_eq_self (l : List Char)
    (h : ∀ c, l.head? = some c → pySpace c = false) : lstripWS l = l :=
  dropWhile_eq_self_of_head pySpace l h

/-- `rstripWS` is the identity when the last element is not whitespace. -/
lemma rstripWS_eq_self (l : List Char)
    (h : ∀ c, l.getLast? = some c → pySpace c = false) : rstripWS l = l := by
  unfold rstripWS
  rw [dropWhile_eq_self_of_head pySpace l.reverse
    (fun c hc => h c (by rwa [List.head?_reverse] at hc)), List.reverse_reverse]

/-- Fixed-point property of the non-empty sanitize path: a list that already
has the output shape is left unchanged. -/
lemma sanitizeCore_fixed (t : List Char)
    (hinv : ∀ c ∈ t, invalidFnChar c = false)
    (hblank : ∀ c ∈ t, pySpace c = true → c = ' ')
    (hch : t.Chain' noAdjSpace)
    (hhead : ∀ c, t.head? = some c → pySpace c = false)
    (hlast : ∀ c, t.getLast? = some c → pySpace c = false)
    (hlen : t.length ≤ 240) :
    sanitizeCore t = t := by
  unfold sanitizeCore
  rw [map_replChar_eq_self t hinv, (collapseWS_eq_self t hblank hch).1]
  unfold stripWS
  rw [rstripWS_eq_self t hlast, lstripWS_eq_self t hhead, if_neg (by omega)]

/-- Every character of the sanitized output is either the inserted blank or
a surviving replaced character; in particular no invalid character and no
whitespace other than `' '` survives. -/
lemma sanitizeCore_shape (s : List Char) :
    (∀ c ∈ sanitizeCore s, invalidFnChar c = false) ∧
    (∀ c ∈ sanitizeCore s, pySpace c = true → c = ' ') ∧
    (sanitizeCore s).Chain' noAdjSpace ∧
    (∀ c, (sanitizeCore s).head? = some c → pySpace c = false) ∧
    (∀ c, (sanitizeCore s).getLast? = some c → pySpace c = false) ∧
    (sanitizeCore s).length ≤ 240 := by
  have hinvK : ∀ c ∈ collapseWS false (s.map replChar), invalidFnChar c = false := by
    intro c hc
    rcases mem_collapseWS false _ c hc with h | h
    · subst h; decide
    · rcases List.mem_map.mp h.1 with ⟨x, _, hx⟩
      rw [← hx]; exact invalidFnChar_replChar x
  have hblankK : ∀ c ∈ collapseWS false (s.map replChar),
      pySpace c = true → c = ' ' := by
    intro c hc hsp
    rcases mem_collapseWS false _ c hc with h | h
    · exact h
    · rw [h.2] at hsp; exact absurd hsp (by simp)
  have hchK := collapseWS_chain (s.map replChar) false
  set k := collapseWS false (s.map replChar) with hk
  set st := stripWS k with hst
  have hmemS : ∀ c ∈ st, c ∈ k := fun c hc => mem_stripWS k c hc
  have hchS : st.Chain' noAdjSpace := by
    have h1 : rstripWS k <+: k := rstripWS_pfx k
    have h2 : st <:+ rstripWS k := List.dropWhile_suffix pySpace
    exact chain_sfx h2 (chain_pfx h1 hchK)
  have hheadS : ∀ c, st.head? = some c → pySpace c = false :=
    fun c hc => lstripWS_head (rstripWS k) c hc
  have hlastS : ∀ c, st.getLast? = some c → pySpace c = false :=
    fun c hc => stripWS_getLast k c hc
  show _ ∧ _ ∧ _ ∧ _ ∧ _ ∧ _
  have hcore : sanitizeCore s =
      if 240 < st.length then rstripWS (st.take 240) else st := rfl
  rw [hcore]
  by_cases hL : 240 < st.length
  · rw [if_pos hL]
    have hpre : rstripWS (st.take 240) <+: st :=
      (rstripWS_pfx (st.take 240)).trans (take_pfx 240 st)
    refine ⟨?_, ?_, ?_, ?_, ?_, ?_⟩
    · exact fun c hc => hinvK c (hmemS c (hpre.subset hc))
    · exact fun c hc => hblankK c (hmemS c (hpre.subset hc))
    · exact chain_pfx hpre hchS
    · exact fun c hc => hheadS c (head?_of_pfx _ st hpre c hc)
    · exact fun c hc => rstripWS_getLast (st.take 240) c hc
    · calc (rstripWS (st.take 240)).length ≤ (st.take 240).length :=
            rstripWS_length_le _
        _ ≤ 240 := by rw [List.length_take]; omega
  · rw [if_neg hL]
    exact ⟨fun c hc => hinvK c (hmemS c hc), fun c hc => hblankK c (hmemS c hc),
      hchS, hheadS, hlastS, by omega⟩

/-- Idempotence of the non-empty sanitize path. -/
lemma sanitizeCore_idem (s : List Char) :
    sanitizeCore (sanitizeCore s) = sanitizeCore s := by
  obtain ⟨h1, h2, h3, h4, h5, h6⟩ := sanitizeCore_shape s
  exact sanitizeCore_fixed _ h1 h2 h3 h4 h5 h6

/-- A whitespace character is never an invalid filename character. -/
lemma invalid_of_space (c : Char) (h : pySpace c = true) :
    invalidFnChar c = false := by
  cases hi : invalidFnChar c with
  | false => rfl
  | true => rw [pySpace_of_invalid c hi] at h; exact absurd h (by simp)

/-- Run-open collapse of an all-whitespace list is empty. -/
lemma collapseWS_true_all_space (l : List Char)
    (h : ∀ c ∈ l, pySpace c = true) : collapseWS true l = [] := by
  induction l with
  | nil => rfl
  | cons a rest ih =>
    rw [collapseWS_cons_space_true a rest (h a (List.mem_cons_self a rest))]
    exact ih fun c hc => h c (List.mem_cons_of_mem a hc)

/-- A nonempty all-whitespace input sanitizes (non-empty path) to the empty
list: the collapse leaves one blank, which the strip removes. -/
lemma sanitizeCore_all_space (s : List Char) (hne : s ≠ [])
    (h : ∀ c ∈ s, pySpace c = true) : sanitizeCore s = [] := by
  have hinv : ∀ c ∈ s, invalidFnChar c = false :=
    fun c hc => invalid_of_space c (h c hc)
  have hcol : collapseWS false (s.map replChar) = [' '] := by
    rw [map_replChar_eq_self s hinv]
    cases s with
    | nil => exact absurd rfl hne
    | cons a rest =>
      rw [collapseWS_cons_space_false a rest (h a (List.mem_cons_self a rest)),
        collapseWS_true_all_space rest fun c hc => h c (List.mem_cons_of_mem a hc)]
  unfold sanitizeCore
  rw [hcol]
  decide

/-- Collapse is the identity on whitespace-free input. -/
lemma collapseWS_no_space (l : List Char)
    (h : ∀ c ∈ l, pySpace c = false) : collapseWS false l = l := by
  induction l with
  | nil => rfl
  | cons a rest ih =>
    rw [collapseWS_cons_nospace false a rest (h a (List.mem_cons_self a rest)),
      ih fun c hc => h c (List.mem_cons_of_mem a hc)]

/-- On whitespace-free input of length at most 240, sanitize (non-empty
path) is exactly the invalid-character replacement. -/
lemma sanitizeCore_no_space (s : List Char)
    (h : ∀ c ∈ s, pySpace c = false) (hlen : s.length ≤ 240) :
    sanitizeCore s = s.map replChar := by
  have hr : ∀ c ∈ s.map replChar, pySpace c = false := by
    intro c hc
    rcases List.mem_map.mp hc with ⟨x, hx, hxc⟩
    rw [← hxc, replChar_space]
    exact h x hx
  have hcol : collapseWS false (s.map replChar) = s.map replChar :=
    collapseWS_no_space _ hr
  have hstrip : stripWS (s.map replChar) = s.map replChar := by
    unfold stripWS
    rw [rstripWS_eq_self _ (fun c hc => hr c (List.mem_of_mem_getLast? hc)),
      lstripWS_eq_self _ (fun c hc => hr c (List.mem_of_mem_head? (by rw [hc]; rfl)))]
  unfold sanitizeCore
  rw [hcol, hstrip, if_neg (by rw [List.length_map]; omega)]

/-! ## Helper lemmas: unique_filename -/

lemma digitsVal_append_digit (l : List Char) (c : Char) :
    digitsVal (l ++ [c]) = 10 * digitsVal l + (c.toNat - 48) := by
  unfold digitsVal
  rw [List.foldl_append]
  rfl

lemma digitChar_val (d : Nat) (h : d < 10) : (Nat.digitChar d).toNat - 48 = d := by
  interval_cases d <;> rfl

lemma digitsVal_decimalAux (fuel n : Nat) (h : n ≤ fuel) :
    digitsVal (decimalAux fuel n) = n := by
  induction fuel generalizing n with
  | zero =>
    have : n = 0 := by omega
    subst this
    decide
  | succ fuel ih =>
    unfold decimalAux
    by_cases hn : n < 10
    · rw [if_pos hn]
      show 10 * 0 + ((Nat.digitChar n).toNat - 48) = n
      rw [digitChar_val n hn]
      omega
    · rw [if_neg hn, digitsVal_append_digit,
        ih (n / 10) (by have := Nat.div_lt_self (by omega : 0 < n) (by omega : 1 < 10); omega),
        digitChar_val (n % 10) (Nat.mod_lt n (by omega))]
      omega

/-- `decimal` is injective (via its evaluation map). -/
lemma decimal_inj (a b : Nat) (h : decimal a = decimal b) : a = b := by
  have ha := digitsVal_decimalAux a a le_rfl
  have hb := digitsVal_decimalAux b b le_rfl
  unfold decimal at h
  rw [h] at ha
  rw [← ha]
  exact hb

lemma decimalAux_length_pos (fuel n : Nat) : 1 ≤ (decimalAux fuel n).length := by
  cases fuel with
  | zero => simp [decimalAux]
  | succ fuel =>
    unfold decimalAux
    split
    · simp
    · simp

lemma decimal_length_pos (n : Nat) : 1 ≤ (decimal n).length :=
  decimalAux_length_pos n n

lemma with_ext_length (b e : List Char) :
    (with_ext b e).length = b.length + (if e = [] then 0 else e.length + 1) := by
  unfold with_ext
  split
  · simp
  · simp [List.length_append]

lemma candidate_length (b e : List Char) (j : Nat) :
    (candidate b e j).length =
      (if j = 0 then b.length
       else b.length + 3 + (decimal j).length) +
      (if e = [] then 0 else e.length + 1) := by
  unfold candidate
  by_cases hj : j = 0
  · rw [if_pos hj, if_pos hj, with_ext_length]
  · rw [if_neg hj, if_neg hj, with_ext_length]
    simp [List.length_append]
    omega

/-- `with_ext` is injective in the base. -/
lemma with_ext_inj (b₁ b₂ e : List Char) (h : with_ext b₁ e = with_ext b₂ e) :
    b₁ = b₂ := by
  unfold with_ext at h
  by_cases he : e = []
  · rwa [if_pos he, if_pos he] at h
  · rw [if_neg he, if_neg he] at h
    exact List.append_cancel_right h

/-- The candidate names probed by `unique_filename` are pairwise distinct. -/
lemma candidate_inj (b e : List Char) : Function.Injective (candidate b e) := by
  intro j₁ j₂ h
  by_cases h1 : j₁ = 0 <;> by_cases h2 : j₂ = 0
  · rw [h1, h2]
  · exfalso
    have hl := congrArg List.length h
    rw [candidate_length, candidate_length, if_pos h1, if_neg h2] at hl
    have := decimal_length_pos j₂
    omega
  · exfalso
    have hl := congrArg List.length h
    rw [candidate_length, candidate_length, if_neg h1, if_pos h2] at hl
    have := decimal_length_pos j₁
    omega
  · unfold candidate at h
    rw [if_neg h1, if_neg h2] at h
    have h' := with_ext_inj _ _ _ h
    have hd : decimal j₁ = decimal j₂ := by simpa using h'
    exact decimal_inj j₁ j₂ hd

/-- Loop characterization: with a free candidate within the fuel, the loop
stops at the first free candidate. -/
lemma uniqueGo_spec (files : List (List Char)) (b e : List Char) :
    ∀ fuel j, (∃ k, k ≤ fuel ∧ candidate b e (j + k) ∉ files) →
      ∃ k, k ≤ fuel ∧ uniqueGo files b e fuel j = candidate b e (j + k) ∧
        candidate b e (j + k) ∉ files ∧
        ∀ m, m < k → candidate b e (j + m) ∈ files := by
  intro fuel
  induction fuel with
  | zero =>
    intro j ⟨k, hk, hfree⟩
    have : k = 0 := by omega
    subst this
    exact ⟨0, le_rfl, rfl, hfree, fun m hm => absurd hm (by omega)⟩
  | succ fuel ih =>
    intro j hex
    by_cases hj : candidate b e j ∈ files
    · obtain ⟨k, hk, hfree⟩ := hex
      have hk0 : k ≠ 0 := by
        intro h0
        rw [h0, Nat.add_zero] at hfree
        exact hfree hj
      obtain ⟨k', rfl⟩ : ∃ k', k = k' + 1 := ⟨k - 1, by omega⟩
      obtain ⟨k'', hk'', heq, hfree'', hmin⟩ :=
        ih (j + 1) ⟨k', by omega, by rw [show j + 1 + k' = j + (k' + 1) by omega]; exact hfree⟩
      refine ⟨k'' + 1, by omega, ?_, ?_, ?_⟩
      · have hstep : uniqueGo files b e (fuel + 1) j = uniqueGo files b e fuel (j + 1) := by
          show (if candidate b e j ∈ files then uniqueGo files b e fuel (j + 1)
            else candidate b e j) = _
          rw [if_pos hj]
        rw [hstep, heq, show j + 1 + k'' = j + (k'' + 1) by omega]
      · rw [show j + (k'' + 1) = j + 1 + k'' by omega]
        exact hfree''
      · intro m hm
        cases m with
        | zero => rwa [Nat.add_zero]
        | succ m' =>
          rw [show j + (m' + 1) = j + 1 + m' by omega]
          exact hmin m' (by omega)
    · refine ⟨0, by omega, ?_, by rwa [Nat.add_zero], fun m hm => absurd hm (by omega)⟩
      rw [Nat.add_zero]
      show (if candidate b e j ∈ files then uniqueGo files b e fuel (j + 1)
        else candidate b e j) = candidate b e j
      rw [if_neg hj]

/-- Pigeonhole: among the first `files.length + 1` candidates at least one
name is not taken. -/
lemma exists_free_candidate (files : List (List Char)) (b e : List Char) :
    ∃ k, k ≤ files.length ∧ candidate b e k ∉ files := by
  by_contra hcon
  push_neg at hcon
  have hsub : (List.range (files.length + 1)).map (candidate b e) ⊆ files := by
    intro x hx
    rcases List.mem_map.mp hx with ⟨k, hk, rfl⟩
    exact hcon k (by simpa using Nat.lt_succ_iff.mp (List.mem_range.mp hk))
  have hnd : ((List.range (files.length + 1)).map (candidate b e)).Nodup :=
    (List.nodup_range _).map (candidate_inj b e)
  have hle := (hnd.subperm hsub).length_le
  simp at hle

/-- Full characterization of `unique_filename`: it returns the first
candidate (in probe order) whose name is not in the folder, built from the
sanitized base name and the dot-stripped extension. -/
lemma unique_filename_spec (files : List (List Char)) (base_name ext : List Char) :
    ∃ k, unique_filename files base_name ext =
        candidate (sanitize_filename base_name) (ext_clean ext) k ∧
      candidate (sanitize_filename base_name) (ext_clean ext) k ∉ files ∧
      ∀ m, m < k → candidate (sanitize_filename base_name) (ext_clean ext) m ∈ files := by
  obtain ⟨k0, hk0, hfree⟩ :=
    exists_free_candidate files (sanitize_filename base_name) (ext_clean ext)
  obtain ⟨k, _, heq, hfree', hmin⟩ :=
    uniqueGo_spec files (sanitize_filename base_name) (ext_clean ext)
      files.length 0 ⟨k0, hk0, by simpa using hfree⟩
  exact ⟨k, by simpa using heq, by simpa using hfree',
    fun m hm => by simpa using hmin m hm⟩

/-! ## Helper lemmas: clean-up, pause loop, option builder -/

/-- After a successful removal step the path is gone. -/
lemma removeStep_out (rm : List Char → Bool) (acc : List (List Char))
    (f : List Char) (h : rm f = true) : f ∉ removeStep rm acc f := by
  unfold removeStep
  by_cases hm : f ∈ acc
  · rw [if_pos hm, if_pos h]
    simp [List.mem_filter]
  · rw [if_neg hm]
    exact hm

/-- A removal step never adds a path. -/
lemma removeStep_mono (rm : List Char → Bool) (acc : List (List Char))
    (f x : List Char) (h : x ∉ acc) : x ∉ removeStep rm acc f := by
  unfold removeStep
  split
  · split
    · intro hc
      exact h (List.mem_filter.mp hc).1
    · exact h
  · exact h

/-- When both removals succeed, neither the output path nor its `.part`
sibling exists after the clean-up. -/
lemma cleanup_partials_removed (rm : List Char → Bool) (fs : List (List Char))
    (o : List Char) (h1 : rm o = true) (h2 : rm (o ++ ".part".toList) = true) :
    o ∉ cleanup_partials rm fs (some o) ∧
    (o ++ ".part".toList) ∉ cleanup_partials rm fs (some o) := by
  have hc : cleanup_partials rm fs (some o) =
      removeStep rm (removeStep rm fs o) (o ++ ".part".toList) := rfl
  rw [hc]
  constructor
  · exact removeStep_mono rm _ _ o (removeStep_out rm fs o h1)
  · exact removeStep_out rm _ _ h2

/-- With the task paused at every check, the wait loop never exits, no
matter how many checks are observed. -/
lemma pause_wait_stillPaused :
    ∀ fuel t, DownloadWorker.pause_wait pausedThenCancelledFlags fuel t =
      .stillPaused := by
  intro fuel
  induction fuel with
  | zero =>
    intro t
    show (if (pausedThenCancelledFlags t).fst then HookExit.stillPaused
      else HookExit.proceeded) = HookExit.stillPaused
    rfl
  | succ fuel ih =>
    intro t
    show (if (pausedThenCancelledFlags t).fst then
        DownloadWorker.pause_wait pausedThenCancelledFlags fuel (t + 1)
      else HookExit.proceeded) = HookExit.stillPaused
    rw [if_pos (show (pausedThenCancelledFlags t).fst = true from rfl)]
    exact ih (t + 1)

/-- Unfolding of `build_ydl_opts` for a format string outside the five
recognized literals. -/
lemma build_ydl_opts_unknown (fmt : String) (vq ab : Option String)
    (cfg : NetConfig)
    (h1 : fmt ≠ "mp4 (with Audio)") (h2 : fmt ≠ "mp4 (without Audio)")
    (h3 : fmt ≠ "mp3") (h4 : fmt ≠ "avi") (h5 : fmt ≠ "mkv") :
    build_ydl_opts fmt vq ab cfg =
      build_ydl_opts "mp4 (with Audio)" (some "best") ab cfg := by
  unfold build_ydl_opts
  rw [if_neg (by simp [h1, h4, h5]), if_neg h2, if_neg h3,
    if_pos (by simp : ("mp4 (with Audio)" : String) = "mp4 (with Audio)" ∨
      ("mp4 (with Audio)" : String) = "avi" ∨ ("mp4 (with Audio)" : String) = "mkv")]
  rfl

/-- The source's inline selector agrees with the spec-table selector. -/
lemma code_video_selector_eq_spec (vq : Option String) :
    code_video_selector vq = specVideoSelector vq := by
  unfold code_video_selector specVideoSelector
  cases vq with
  | none => rfl
  | some q =>
    by_cases hb : q = "best"
    · simp [hb]
    · by_cases he : q = ""
      · simp [hb, he]
      · simp [hb, he]

/-- The source's inline video-only selector agrees with the spec-table
selector. -/
lemma code_videoonly_selector_eq_spec (vq : Option String) :
    code_videoonly_selector vq = specVideoOnlySelector vq := by
  unfold code_videoonly_selector specVideoOnlySelector
  cases vq with
  | none => rfl
  | some q =>
    by_cases hb : q = "best"
    · simp [hb]
    · by_cases he : q = ""
      · simp [hb, he]
      · simp [hb, he]

lemma specVideoSelector_length_pos (vq : Option String) :
    0 < (specVideoSelector vq).length := by
  cases vq with
  | none => decide
  | some q =>
    show 0 < (if q ≠ "best" ∧ q ≠ "" then
        "bestvideo[height<=" ++ q ++ "]+bestaudio/best[height<=" ++ q ++ "]"
      else "bestvideo+bestaudio/best").length
    by_cases hq : q ≠ "best" ∧ q ≠ ""
    · rw [if_pos hq, String.length_append, String.length_append,
        String.length_append, String.length_append]
      have h18 : ("bestvideo[height<=" : String).length = 18 := by decide
      omega
    · rw [if_neg hq]
      decide

lemma specVideoOnlySelector_length_pos (vq : Option String) :
    0 < (specVideoOnlySelector vq).length := by
  cases vq with
  | none => decide
  | some q =>
    show 0 < (if q ≠ "best" ∧ q ≠ "" then "bestvideo[height<=" ++ q ++ "]"
      else "bestvideo").length
    by_cases hq : q ≠ "best" ∧ q ≠ ""
    · rw [if_pos hq, String.length_append, String.length_append]
      have h18 : ("bestvideo[height<=" : String).length = 18 := by decide
      omega
    · rw [if_neg hq]
      decide

lemma specTable_selector_length_pos (k : OutputKind) (vq ab : Option String) :
    0 < (specTable k vq ab).formatSelector.length := by
  cases k with
  | VideoWithAudio => exact specVideoSelector_length_pos vq
  | ContainerAVI => exact specVideoSelector_length_pos vq
  | ContainerMKV => exact specVideoSelector_length_pos vq
  | VideoOnly => exact specVideoOnlySelector_length_pos vq
  | AudioOnly => show 0 < ("bestaudio" : String).length; decide
  | UnknownKind => show 0 < ("bestvideo+bestaudio/best" : String).length; decide

lemma sanitize_eq_core (s : List Char) (h : s ≠ []) :
    sanitize_filename s = sanitizeCore s := by
  unfold sanitize_filename
  rw [if_neg h]

/-- A whitespace-free list trivially has no adjacent whitespace pair. -/
lemma chain'_noAdjSpace_of_no_space (l : List Char)
    (h : ∀ c ∈ l, pySpace c = false) : l.Chain' noAdjSpace := by
  induction l with
  | nil => simp
  | cons a rest ih =>
    refine List.chain'_cons'.mpr
      ⟨?_, ih fun c hc => h c (List.mem_cons_of_mem a hc)⟩
    intro y _ hcon
    rw [h a (List.mem_cons_self a rest)] at hcon
    exact Bool.false_ne_true hcon.1

/-! ## Claim theorems -/

/-- C8 counterexample: the input `" "` consists only of characters the
sanitizer strips away, yet `sanitize_filename " "` is the empty string, not
the literal `"download"` — the fallback is returned only for the empty
input. -/
theorem C8_sanitize_fallback_counterexample :
    sanitize_filename " ".toList = [] ∧
    sanitize_filename " ".toList ≠ "download".toList := by
  decide

/-- C8 (amended): for every input, sanitize replaces the reserved characters
`< > : " / \ | ? *` and NUL with underscores (on whitespace-free input of
bounded length the result is exactly the character-wise replacement),
collapses whitespace runs to single spaces, trims the ends, and truncates to
at most 240 characters; the literal `"download"` is returned exactly for the
empty input, while a nonempty all-whitespace input yields the empty
string. -/
theorem C8_sanitize_shape :
    (∀ s, ∀ c ∈ sanitize_filename s, invalidFnChar c = false) ∧
    (∀ s, (sanitize_filename s).length ≤ 240) ∧
    (∀ s c, (sanitize_filename s).head? = some c → pySpace c = false) ∧
    (∀ s c, (sanitize_filename s).getLast? = some c → pySpace c = false) ∧
    (∀ s, ∀ c ∈ sanitize_filename s, pySpace c = true → c = ' ') ∧
    (∀ s, (sanitize_filename s).Chain' noAdjSpace) ∧
    sanitize_filename [] = "download".toList ∧
    (∀ s, s ≠ [] → (∀ c ∈ s, pySpace c = true) → sanitize_filename s = []) ∧
    (∀ s, s ≠ [] → (∀ c ∈ s, pySpace c = false) → s.length ≤ 240 →
      sanitize_filename s = s.map replChar) := by
  have hdl1 : ∀ x ∈ "download".toList, invalidFnChar x = false := by decide
  have hdl2 : ∀ x ∈ "download".toList, pySpace x = true → x = ' ' := by decide
  refine ⟨?_, ?_, ?_, ?_, ?_, ?_, rfl, ?_, ?_⟩
  · intro s c hc
    by_cases hs : s = []
    · rw [hs] at hc
      exact hdl1 c hc
    · rw [sanitize_eq_core s hs] at hc
      exact (sanitizeCore_shape s).1 c hc
  · intro s
    by_cases hs : s = []
    · rw [hs]
      decide
    · rw [sanitize_eq_core s hs]
      exact (sanitizeCore_shape s).2.2.2.2.2
  · intro s c hc
    by_cases hs : s = []
    · rw [hs] at hc
      have : ("download".toList).head? = some 'd' := rfl
      rw [show sanitize_filename [] = "download".toList from rfl, this] at hc
      cases hc
      decide
    · rw [sanitize_eq_core s hs] at hc
      exact (sanitizeCore_shape s).2.2.2.1 c hc
  · intro s c hc
    by_cases hs : s = []
    · rw [hs] at hc
      have : ("download".toList).getLast? = some 'd' := rfl
      rw [show sanitize_filename [] = "download".toList from rfl, this] at hc
      cases hc
      decide
    · rw [sanitize_eq_core s hs] at hc
      exact (sanitizeCore_shape s).2.2.2.2.1 c hc
  · intro s c hc
    by_cases hs : s = []
    · rw [hs] at hc
      exact hdl2 c hc
    · rw [sanitize_eq_core s hs] at hc
      exact (sanitizeCore_shape s).2.1 c hc
  · intro s
    by_cases hs : s = []
    · rw [hs]
      show ("download".toList).Chain' noAdjSpace
      exact chain'_noAdjSpace_of_no_space _ (by decide)
    · rw [sanitize_eq_core s hs]
      exact (sanitizeCore_shape s).2.2.1
  · intro s hs hsp
    rw [sanitize_eq_core s hs]
    exact sanitizeCore_all_space s hs hsp
  · intro s hs hsp hlen
    rw [sanitize_eq_core s hs]
    exact sanitizeCore_no_space s hsp hlen

/-- C8 witness: the shape theorem applied at the concrete inputs
`"a<b  c?"` (generic clauses), `"  "` (all-whitespace clause) and `"x*y"`
(whitespace-free clause). -/
theorem C8_sanitize_shape_witness :
    (∀ c ∈ sanitize_filename "a<b  c?".toList, invalidFnChar c = false) ∧
    sanitize_filename "  ".toList = [] ∧
    sanitize_filename "x*y".toList = "x*y".toList.map replChar := by
  refine ⟨C8_sanitize_shape.1 "a<b  c?".toList, ?_, ?_⟩
  · exact C8_sanitize_shape.2.2.2.2.2.2.2.1 "  ".toList (by decide) (by decide)
  · exact C8_sanitize_shape.2.2.2.2.2.2.2.2 "x*y".toList (by decide) (by decide)
      (by decide)

/-- C9 counterexample: sanitize is not idempotent — the all-whitespace
input `" "` sanitizes to the empty string, which re-sanitizes to
`"download"`. -/
theorem C9_sanitize_idempotence_counterexample :
    sanitize_filename (sanitize_filename " ".toList) ≠
      sanitize_filename " ".toList := by
  decide

/-- C9 (amended): sanitize is idempotent on every input whose sanitized
form is nonempty (equivalently, on every input except the nonempty
all-whitespace strings). -/
theorem C9_sanitize_idempotent (s : List Char)
    (h : sanitize_filename s ≠ []) :
    sanitize_filename (sanitize_filename s) = sanitize_filename s := by
  by_cases hs : s = []
  · rw [hs]
    decide
  · rw [sanitize_eq_core s hs] at h ⊢
    rw [sanitize_eq_core _ h]
    exact sanitizeCore_idem s

/-- C9 witness: idempotence applied at the concrete input `"My Movie"`. -/
theorem C9_sanitize_idempotent_witness :
    sanitize_filename "My Movie".toList ≠ [] ∧
    sanitize_filename (sanitize_filename "My Movie".toList) =
      sanitize_filename "My Movie".toList :=
  ⟨by decide, C9_sanitize_idempotent "My Movie".toList (by decide)⟩

/-- C10: for every input the option builder disables playlist processing
and the extractor cache — `noplaylist` is always true and `cachedir` always
false. -/
theorem C10_noplaylist_cachedir (fmt : String) (vq ab : Option String)
    (cfg : NetConfig) :
    (build_ydl_opts fmt vq ab cfg).noplaylist = true ∧
    (build_ydl_opts fmt vq ab cfg).cachedir = false := by
  unfold build_ydl_opts
  repeat' split
  all_goals exact ⟨rfl, rfl⟩

/-- C6 counterexample: a forced base name containing a character the
sanitizer replaces is not used verbatim — the resolver runs it through the
sanitizer, so forcing `"x:y"` (no collision: empty folder) produces the stem
`"x_y"`, not `"x:y"`. -/
theorem C6_forced_name_counterexample :
    unique_filename [] "x:y".toList "mp4".toList = "x_y.mp4".toList ∧
    unique_filename [] "x:y".toList "mp4".toList ≠ "x:y.mp4".toList := by
  decide

/-- C6 (amended): the forced base name always wins over a title-derived
name, but the uniqueness resolver passes it through the sanitizer; the
resolved stem is thus the forced name verbatim — modified only by the
numeric `" (n)"` suffix — exactly for forced names the sanitizer leaves
unchanged. -/
theorem C6_forced_name_stem (files : List (List Char)) (base ext : List Char)
    (hfix : sanitize_filename base = base) :
    unique_filename files base ext = with_ext base (ext_clean ext) ∨
    ∃ j, 1 ≤ j ∧ unique_filename files base ext =
      with_ext (base ++ (' ' :: '(' :: decimal j) ++ [')']) (ext_clean ext) := by
  obtain ⟨k, heq, _, _⟩ := unique_filename_spec files base ext
  rw [hfix] at heq
  cases k with
  | zero =>
    left
    rw [heq]
    rfl
  | succ k' =>
    right
    refine ⟨k' + 1, by omega, ?_⟩
    rw [heq]
    unfold candidate
    rw [if_neg (by omega)]

/-- C6 witness: the amended theorem applied at the sanitizer-invariant
forced name `"movie"` against an empty folder. -/
theorem C6_forced_name_stem_witness :
    unique_filename [] "movie".toList "mp4".toList =
      with_ext "movie".toList (ext_clean "mp4".toList) ∨
    ∃ j, 1 ≤ j ∧ unique_filename [] "movie".toList "mp4".toList =
      with_ext ("movie".toList ++ (' ' :: '(' :: decimal j) ++ [')'])
        (ext_clean "mp4".toList) :=
  C6_forced_name_stem [] "movie".toList "mp4".toList (by decide)

/-- C7 counterexample: the resolver does not return `folder/baseName.ext`
verbatim even when that name is free — the base name is sanitized first:
with an empty folder, base `"a/b"` and extension `"mp4"` it returns
`"a_b.mp4"`, not `"a/b.mp4"`. -/
theorem C7_unique_counterexample :
    unique_filename [] "a/b".toList "mp4".toList = "a_b.mp4".toList ∧
    unique_filename [] "a/b".toList "mp4".toList ≠ "a/b.mp4".toList := by
  decide

/-- C7 (amended): for every folder state, base name and extension, the
returned name does not exist at call time, and it is the first of
`sanitize(base).ext`, `sanitize(base) (1).ext`, `sanitize(base) (2).ext`, …
that does not exist; in particular, against a folder holding `"a.mp4"` and
`"a (1).mp4"`, base `"a"` with extension `"mp4"` resolves to
`"a (2).mp4"`. -/
theorem C7_unique_first_free :
    (∀ files base ext,
      unique_filename files base ext ∉ files ∧
      ∃ k, unique_filename files base ext =
          candidate (sanitize_filename base) (ext_clean ext) k ∧
        ∀ m, m < k →
          candidate (sanitize_filename base) (ext_clean ext) m ∈ files) ∧
    unique_filename ["a.mp4".toList, "a (1).mp4".toList] "a".toList
      "mp4".toList = "a (2).mp4".toList := by
  constructor
  · intro files base ext
    obtain ⟨k, heq, hfree, hmin⟩ := unique_filename_spec files base ext
    exact ⟨by rw [heq]; exact hfree, k, heq, hmin⟩
  · decide

/-- C7 witness: the no-collision guarantee at a concrete folder state. -/
theorem C7_unique_first_free_witness :
    unique_filename ["a.mp4".toList, "a (1).mp4".toList] "a".toList
      "mp4".toList ∉ ["a.mp4".toList, "a (1).mp4".toList] :=
  (C7_unique_first_free.1 ["a.mp4".toList, "a (1).mp4".toList] "a".toList
    "mp4".toList).1

/-- C4 counterexample: the `"avi"` output kind gets no post-process
directive from the builder — `postprocessor_args` stays unset — though the
spec's table row prescribes a copy-codecs merge directive for it. -/
theorem C4_avi_postprocess_counterexample :
    (build_ydl_opts "avi" (some "720") (some "192")
      ⟨none, none⟩).postprocessor_args = none ∧
    (build_ydl_opts "avi" (some "720") (some "192")
      ⟨none, none⟩).postprocessor_args ≠ some ["-c", "copy"] := by
  decide

/-- C4 (amended): for every output kind, quality ceiling and bitrate the
builder's format selector, merge container, post-process directives and
audio post-processors are exactly the (amended) spec table: ContainerAVI /
ContainerMKV get the same selector as VideoWithAudio with merge container
avi / mkv and NO post-process directive; AudioOnly gets the best-audio
selector with an mp3 extraction at the given bitrate and no merge
container; an unknown kind falls back to the VideoWithAudio row with the
unconstrained selector; all selectors are non-empty. -/
theorem C4_option_table (fmt : String) (vq ab : Option String)
    (cfg : NetConfig) :
    (build_ydl_opts fmt vq ab cfg).format =
      some (specTable (kindOf fmt) vq ab).formatSelector ∧
    (build_ydl_opts fmt vq ab cfg).merge_output_format =
      (specTable (kindOf fmt) vq ab).mergeContainer ∧
    (build_ydl_opts fmt vq ab cfg).postprocessor_args =
      (specTable (kindOf fmt) vq ab).postProcessArgs ∧
    (build_ydl_opts fmt vq ab cfg).postprocessors =
      (specTable (kindOf fmt) vq ab).postProcessors ∧
    0 < (specTable (kindOf fmt) vq ab).formatSelector.length := by
  by_cases h1 : fmt = "mp4 (with Audio)"
  · subst h1
    refine ⟨?_, rfl, rfl, rfl, specTable_selector_length_pos _ _ _⟩
    show some (code_video_selector vq) = some (specVideoSelector vq)
    rw [code_video_selector_eq_spec]
  · by_cases h2 : fmt = "mp4 (without Audio)"
    · subst h2
      refine ⟨?_, rfl, rfl, rfl, specTable_selector_length_pos _ _ _⟩
      show some (code_videoonly_selector vq) = some (specVideoOnlySelector vq)
      rw [code_videoonly_selector_eq_spec]
    · by_cases h3 : fmt = "mp3"
      · subst h3
        exact ⟨rfl, rfl, rfl, rfl, specTable_selector_length_pos _ _ _⟩
      · by_cases h4 : fmt = "avi"
        · subst h4
          refine ⟨?_, rfl, rfl, rfl, specTable_selector_length_pos _ _ _⟩
          show some (code_video_selector vq) = some (specVideoSelector vq)
          rw [code_video_selector_eq_spec]
        · by_cases h5 : fmt = "mkv"
          · subst h5
            refine ⟨?_, rfl, rfl, rfl, specTable_selector_length_pos _ _ _⟩
            show some (code_video_selector vq) = some (specVideoSelector vq)
            rw [code_video_selector_eq_spec]
          · have hk : kindOf fmt = .UnknownKind := by
              unfold kindOf
              rw [if_neg h1, if_neg h2, if_neg h3, if_neg h4, if_neg h5]
            rw [build_ydl_opts_unknown fmt vq ab cfg h1 h2 h3 h4 h5, hk]
            exact ⟨rfl, rfl, rfl, rfl, specTable_selector_length_pos _ _ _⟩

/-- C5 counterexample: with both tuning keys absent, the shared builder
defaults to 3 concurrent fragments and 1 MiB chunks, not to the claimed 5
fragments and 2 MiB chunks. -/
theorem C5_tuning_defaults_counterexample :
    (build_ydl_opts "mp3" none none
      ⟨none, none⟩).concurrent_fragment_downloads = 3 ∧
    (build_ydl_opts "mp3" none none ⟨none, none⟩).http_chunk_size = 1048576 ∧
    ¬((build_ydl_opts "mp3" none none
        ⟨none, none⟩).concurrent_fragment_downloads = 5 ∧
      (build_ydl_opts "mp3" none none
        ⟨none, none⟩).http_chunk_size = 2097152) := by
  decide

/-- C5 (amended): the concurrency fragment count and HTTP chunk size pass
through unchanged from the tuning configuration when present, in both
builders; when the keys are absent, workers.py's shared builder defaults to
3 fragments and 1 MiB (1048576-byte) chunks, while the legacy worker in
downloader.py defaults to 5 fragments and 2 MiB (2097152-byte) chunks. -/
theorem C5_tuning_passthrough_and_defaults (fmt : String)
    (vq ab : Option String) (n m : Int) :
    (build_ydl_opts fmt vq ab
      ⟨some n, some m⟩).concurrent_fragment_downloads = n ∧
    (build_ydl_opts fmt vq ab ⟨some n, some m⟩).http_chunk_size = m ∧
    (build_ydl_opts fmt vq ab ⟨none, none⟩).concurrent_fragment_downloads = 3 ∧
    (build_ydl_opts fmt vq ab ⟨none, none⟩).http_chunk_size = 1048576 ∧
    (downloader_run_base_opts
      ⟨some n, some m⟩).concurrent_fragment_downloads = n ∧
    (downloader_run_base_opts ⟨some n, some m⟩).http_chunk_size = m ∧
    (downloader_run_base_opts ⟨none, none⟩).concurrent_fragment_downloads = 5 ∧
    (downloader_run_base_opts ⟨none, none⟩).http_chunk_size = 2097152 := by
  refine ⟨?_, ?_, ?_, ?_, rfl, rfl, rfl, rfl⟩ <;>
  · unfold build_ydl_opts
    repeat' split
    all_goals rfl

/-! ## Helper lemmas: run characterizations -/

lemma MetadataWorker_run_ok (ext : Bool → Except (List Char) Unit)
    (h : ext false = .ok ()) :
    MetadataWorker.run ext = ([false], .metadataEmitted) := by
  unfold MetadataWorker.run
  rw [h]

lemma MetadataWorker_run_auth_ok (ext : Bool → Except (List Char) Unit)
    (e : List Char) (h : ext false = .error e) (ha : authSignal e = true)
    (ht : ext true = .ok ()) :
    MetadataWorker.run ext = ([false, true], .metadataEmitted) := by
  unfold MetadataWorker.run
  rw [h]
  show (if authSignal e = true then _ else _) = _
  rw [if_pos ha, ht]

lemma MetadataWorker_run_auth_err (ext : Bool → Except (List Char) Unit)
    (e e2 : List Char) (h : ext false = .error e) (ha : authSignal e = true)
    (ht : ext true = .error e2) :
    MetadataWorker.run ext = ([false, true], .errorEvent e2) := by
  unfold MetadataWorker.run
  rw [h]
  show (if authSignal e = true then _ else _) = _
  rw [if_pos ha, ht]

lemma MetadataWorker_run_nonauth (ext : Bool → Except (List Char) Unit)
    (e : List Char) (h : ext false = .error e) (ha : authSignal e = false) :
    MetadataWorker.run ext = ([false], .errorEvent e) := by
  unfold MetadataWorker.run
  rw [h]
  show (if authSignal e = true then _ else _) = _
  rw [if_neg (by simp [ha])]

lemma download_phase_ok (used : Bool) (dl : Bool → Except (List Char) Unit)
    (out : Option (List Char)) (fs : List (List Char)) (rm : List Char → Bool)
    (h : dl used = .ok ()) :
    DownloadWorker.download_phase used dl out fs rm = ([used], .finished, fs) := by
  unfold DownloadWorker.download_phase
  rw [h]

lemma download_phase_retry_ok (dl : Bool → Except (List Char) Unit)
    (out : Option (List Char)) (fs : List (List Char)) (rm : List Char → Bool)
    (e : List Char) (h : dl false = .error e) (ha : authSignal e = true)
    (ht : dl true = .ok ()) :
    DownloadWorker.download_phase false dl out fs rm =
      ([false, true], .finished, fs) := by
  unfold DownloadWorker.download_phase
  rw [h]
  show (if (!false && authSignal e) = true then _ else _) = _
  rw [if_pos (by simp [ha]), ht]

lemma download_phase_retry_err (dl : Bool → Except (List Char) Unit)
    (out : Option (List Char)) (fs : List (List Char)) (rm : List Char → Bool)
    (e e2 : List Char) (h : dl false = .error e) (ha : authSignal e = true)
    (ht : dl true = .error e2) :
    DownloadWorker.download_phase false dl out fs rm =
      ([false, true], .errorEvent e2, cleanup_partials rm fs out) := by
  unfold DownloadWorker.download_phase
  rw [h]
  show (if (!false && authSignal e) = true then _ else _) = _
  rw [if_pos (by simp [ha]), ht]

lemma download_phase_noretry (used : Bool) (dl : Bool → Except (List Char) Unit)
    (out : Option (List Char)) (fs : List (List Char)) (rm : List Char → Bool)
    (e : List Char) (h : dl used = .error e)
    (hc : used = true ∨ authSignal e = false) :
    DownloadWorker.download_phase used dl out fs rm =
      ([used], .errorEvent e, cleanup_partials rm fs out) := by
  unfold DownloadWorker.download_phase
  rw [h]
  show (if (!used && authSignal e) = true then _ else _) = _
  rw [if_neg (by rcases hc with hc | hc <;> simp [hc])]

/-- C1 counterexample: a transfer that starts with the fallback headers
already latched (`used = true`, i.e. the probe phase consumed the
authorization retry) and then fails with an authorization-denied message is
not retried at all: exactly one provider call is made and the error is
surfaced directly, although the claim mandates exactly one retry for every
transfer failing with that signal. -/
theorem C1_transfer_retry_counterexample :
    authSignal "HTTP Error 403: Forbidden".toList = true ∧
    (DownloadWorker.download_phase true alwaysAuthFailOracle none []
      (fun _ => true)).fst = [true] ∧
    (DownloadWorker.download_phase true alwaysAuthFailOracle none []
      (fun _ => true)).snd.fst =
      .errorEvent "HTTP Error 403: Forbidden".toList := by
  decide

/-- C1 (amended): every probe failing with the case-insensitive "403" /
"forbidden" signal is retried exactly once with the fallback headers, and a
transfer failing with that signal is retried exactly once provided the
fallback headers were not already latched during the probe phase; a second
authorization failure, any failure without the signal, and a transfer
authorization failure with the headers already latched are surfaced through
the error event carrying the underlying message; no run ever makes a third
provider call. -/
theorem C1_authorization_retry_policy :
    (∀ ext : Bool → Except (List Char) Unit,
      (MetadataWorker.run ext).fst.length ≤ 2 ∧
      (ext false = .ok () →
        MetadataWorker.run ext = ([false], .metadataEmitted)) ∧
      (∀ e, ext false = .error e → authSignal e = true →
        (MetadataWorker.run ext).fst = [false, true] ∧
        (ext true = .ok () → (MetadataWorker.run ext).snd = .metadataEmitted) ∧
        (∀ e2, ext true = .error e2 →
          (MetadataWorker.run ext).snd = .errorEvent e2)) ∧
      (∀ e, ext false = .error e → authSignal e = false →
        MetadataWorker.run ext = ([false], .errorEvent e))) ∧
    (∀ (used : Bool) (dl : Bool → Except (List Char) Unit) out fs rm,
      (DownloadWorker.download_phase used dl out fs rm).fst.length ≤ 2 ∧
      (dl used = .ok () →
        DownloadWorker.download_phase used dl out fs rm =
          ([used], .finished, fs)) ∧
      (∀ e, dl false = .error e → authSignal e = true →
        (DownloadWorker.download_phase false dl out fs rm).fst =
          [false, true] ∧
        (dl true = .ok () →
          (DownloadWorker.download_phase false dl out fs rm).snd.fst =
            .finished) ∧
        (∀ e2, dl true = .error e2 →
          (DownloadWorker.download_phase false dl out fs rm).snd.fst =
            .errorEvent e2)) ∧
      (∀ e, dl used = .error e → (used = true ∨ authSignal e = false) →
        (DownloadWorker.download_phase used dl out fs rm).fst = [used] ∧
        (DownloadWorker.download_phase used dl out fs rm).snd.fst =
          .errorEvent e)) := by
  constructor
  · intro ext
    refine ⟨?_, ?_, ?_, ?_⟩
    · cases hf : ext false with
      | ok u =>
        cases u
        rw [MetadataWorker_run_ok ext hf]
        simp
      | error e =>
        by_cases ha : authSignal e = true
        · cases ht : ext true with
          | ok u =>
            cases u
            rw [MetadataWorker_run_auth_ok ext e hf ha ht]
            simp
          | error e2 =>
            rw [MetadataWorker_run_auth_err ext e e2 hf ha ht]
            simp
        · rw [MetadataWorker_run_nonauth ext e hf (by simpa using ha)]
          simp
    · intro h
      exact MetadataWorker_run_ok ext h
    · intro e he ha
      refine ⟨?_, ?_, ?_⟩
      · cases ht : ext true with
        | ok u =>
          cases u
          rw [MetadataWorker_run_auth_ok ext e he ha ht]
        | error e2 =>
          rw [MetadataWorker_run_auth_err ext e e2 he ha ht]
      · intro ht
        rw [MetadataWorker_run_auth_ok ext e he ha ht]
      · intro e2 ht
        rw [MetadataWorker_run_auth_err ext e e2 he ha ht]
    · intro e he ha
      exact MetadataWorker_run_nonauth ext e he ha
  · intro used dl out fs rm
    refine ⟨?_, ?_, ?_, ?_⟩
    · cases hf : dl used with
      | ok u =>
        cases u
        rw [download_phase_ok used dl out fs rm hf]
        simp
      | error e =>
        by_cases hb : (used = true ∨ authSignal e = false)
        · rw [download_phase_noretry used dl out fs rm e hf hb]
          simp
        · push_neg at hb
          obtain ⟨hu, ha⟩ := hb
          have hu' : used = false := by
            cases used
            · rfl
            · exact absurd rfl hu
          have ha' : authSignal e = true := by simpa using ha
          subst hu'
          cases ht : dl true with
          | ok u =>
            cases u
            rw [download_phase_retry_ok dl out fs rm e hf ha' ht]
            simp
          | error e2 =>
            rw [download_phase_retry_err dl out fs rm e e2 hf ha' ht]
            simp
    · intro h
      exact download_phase_ok used dl out fs rm h
    · intro e he ha
      refine ⟨?_, ?_, ?_⟩
      · cases ht : dl true with
        | ok u =>
          cases u
          rw [download_phase_retry_ok dl out fs rm e he ha ht]
        | error e2 =>
          rw [download_phase_retry_err dl out fs rm e e2 he ha ht]
      · intro ht
        rw [download_phase_retry_ok dl out fs rm e he ha ht]
      · intro e2 ht
        rw [download_phase_retry_err dl out fs rm e e2 he ha ht]
    · intro e he hc
      rw [download_phase_noretry used dl out fs rm e he hc]
      exact ⟨rfl, rfl⟩

/-- C1 witness: the policy applied to concrete oracles — a probe whose bare
call fails with a 403 and whose fallback call succeeds, and a transfer
failing with a non-authorization message. -/
theorem C1_authorization_retry_policy_witness :
    (MetadataWorker.run authThenOkOracle).fst = [false, true] ∧
    (MetadataWorker.run authThenOkOracle).snd = .metadataEmitted ∧
    (DownloadWorker.download_phase false alwaysBoomOracle none []
      (fun _ => true)).fst = [false] ∧
    (DownloadWorker.download_phase false alwaysBoomOracle none []
      (fun _ => true)).snd.fst =
      .errorEvent "network unreachable".toList := by
  obtain ⟨hA, hB⟩ := C1_authorization_retry_policy
  have h3 := (hA authThenOkOracle).2.2.1 "HTTP Error 403: Forbidden".toList
    rfl (by decide)
  have h4 := (hB false alwaysBoomOracle none [] (fun _ => true)).2.2.2
    "network unreachable".toList rfl (Or.inr (by decide))
  exact ⟨h3.1, h3.2.1 rfl, h4.1, h4.2⟩

/-- C2: whenever the download phase terminates non-successfully (transfer
failure after any retry, or cooperative cancellation, which surfaces as the
`"Cancelled"` failure raised by the progress hook), the clean-up loop runs
over the resolved output path and its `.part` sibling: when the removals
succeed neither file exists afterwards, and the emitted error message is
unaffected by removal failures (deletion exceptions are swallowed, never
escalated). -/
theorem C2_cleanup_on_failure :
    (∀ used (dl : Bool → Except (List Char) Unit) (o : List Char) fs rm rm2 e,
      (DownloadWorker.download_phase used dl (some o) fs rm).snd.fst =
        .errorEvent e →
      (DownloadWorker.download_phase used dl (some o) fs rm2).snd.fst =
        .errorEvent e ∧
      (rm o = true → rm (o ++ ".part".toList) = true →
        o ∉ (DownloadWorker.download_phase used dl (some o) fs rm).snd.snd ∧
        (o ++ ".part".toList) ∉
          (DownloadWorker.download_phase used dl (some o) fs rm).snd.snd)) ∧
    (∀ used (o : List Char) fs rm,
      (DownloadWorker.download_phase used
        (fun _ => .error "Cancelled".toList) (some o) fs rm).snd.fst =
        .errorEvent "Cancelled".toList) := by
  constructor
  · intro used dl o fs rm rm2 e he
    cases hf : dl used with
    | ok u =>
      cases u
      rw [download_phase_ok used dl (some o) fs rm hf] at he
      simp at he
    | error e0 =>
      by_cases hb : (used = true ∨ authSignal e0 = false)
      · rw [download_phase_noretry used dl (some o) fs rm e0 hf hb] at he
        have he0 : e0 = e := by
          simpa using he
        subst he0
        refine ⟨?_, ?_⟩
        · rw [download_phase_noretry used dl (some o) fs rm2 e0 hf hb]
        · intro h1 h2
          rw [download_phase_noretry used dl (some o) fs rm e0 hf hb]
          exact cleanup_partials_removed rm fs o h1 h2
      · push_neg at hb
        obtain ⟨hu, ha⟩ := hb
        have hu' : used = false := by
          cases used
          · rfl
          · exact absurd rfl hu
        have ha' : authSignal e0 = true := by simpa using ha
        subst hu'
        cases ht : dl true with
        | ok u =>
          cases u
          rw [download_phase_retry_ok dl (some o) fs rm e0 hf ha' ht] at he
          simp at he
        | error e2 =>
          rw [download_phase_retry_err dl (some o) fs rm e0 e2 hf ha' ht] at he
          have he2 : e2 = e := by
            simpa using he
          subst he2
          refine ⟨?_, ?_⟩
          · rw [download_phase_retry_err dl (some o) fs rm2 e0 e2 hf ha' ht]
          · intro h1 h2
            rw [download_phase_retry_err dl (some o) fs rm e0 e2 hf ha' ht]
            exact cleanup_partials_removed rm fs o h1 h2
  · intro used o fs rm
    rw [download_phase_noretry used (fun _ => .error "Cancelled".toList)
      (some o) fs rm "Cancelled".toList rfl (Or.inr (by decide))]

/-- C2 witness: a concrete failed transfer over a filesystem holding both
the output file and its partial sibling, with removals succeeding. -/
theorem C2_cleanup_on_failure_witness :
    (DownloadWorker.download_phase false alwaysBoomOracle
      (some "v.mp4".toList) ["v.mp4".toList, "v.mp4.part".toList]
      (fun _ => true)).snd.fst = .errorEvent "network unreachable".toList ∧
    "v.mp4".toList ∉ (DownloadWorker.download_phase false alwaysBoomOracle
      (some "v.mp4".toList) ["v.mp4".toList, "v.mp4.part".toList]
      (fun _ => true)).snd.snd ∧
    ("v.mp4".toList ++ ".part".toList) ∉
      (DownloadWorker.download_phase false alwaysBoomOracle
        (some "v.mp4".toList) ["v.mp4".toList, "v.mp4.part".toList]
        (fun _ => true)).snd.snd := by
  obtain ⟨h1, _⟩ := C2_cleanup_on_failure
  have h := h1 false alwaysBoomOracle "v.mp4".toList
    ["v.mp4".toList, "v.mp4.part".toList] (fun _ => true) (fun _ => true)
    "network unreachable".toList (by decide)
  exact ⟨h.1, (h.2 rfl rfl).1, (h.2 rfl rfl).2⟩

/-- C3 (code bug in the source): the pause wait loop
`while self._paused: time.sleep(0.2)` reads only the paused flag; the
cancelled flag is read once at hook entry.  A cancel issued while the task
is paused is therefore never observed while the pause lasts — the hook
keeps spinning for every number of checks and never raises the
cancellation — and even when a resume later ends the loop, the current
invocation proceeds normally instead of aborting (the cancel is only seen
at the next invocation's entry check), contradicting the claim that a
cancel issued while paused is observed at the next check of the cooperative
flags without requiring a prior resume. -/
theorem C3_pause_cancel_never_observed :
    (∀ fuel, DownloadWorker.progress_hook pausedThenCancelledFlags fuel =
      .stillPaused) ∧
    (∀ fuel, DownloadWorker.progress_hook pausedThenCancelledFlags fuel ≠
      .raisedCancelled) ∧
    DownloadWorker.progress_hook cancelThenResumeFlags 10 = .proceeded := by
  have hmain : ∀ fuel,
      DownloadWorker.progress_hook pausedThenCancelledFlags fuel =
        .stillPaused := by
    intro fuel
    unfold DownloadWorker.progress_hook
    rw [if_neg (show ¬(pausedThenCancelledFlags 0).snd = true by decide)]
    exact pause_wait_stillPaused fuel 1
  refine ⟨hmain, ?_, by decide⟩
  intro fuel h
  rw [hmain fuel] at h
  exact HookExit.noConfusion h

end VideoDownloader
